import Mathlib

/-!
Verification of the phantom-ecs batch executor
(src/internal/batch/batch.go) and the configuration validator
(src/internal/config/enhanced_config.go, src/internal/config/config.go),
as a shallow embedding in Lean 4.

Modelling conventions:
* Go `error` values are `Option Err` with `Err := String` (the rendered
  message); `none` is the nil error.
* `time.Duration` values produced by `time.Since` are non-negative and are
  modelled as `Nat` (nanoseconds); overflow of the int64 sum is irrelevant
  at realistic magnitudes and is not modelled.
* Go `int` fields are modelled as `Int`; the one place a conversion to
  `uint` happens (`uint(RetryAttempts+1)`) is modelled with an explicit
  `% 2^64`.
* The scheduler's goroutines write disjoint slots of a pre-allocated
  result slice; the per-item computation depends only on the item's own
  retry trace, so `ProcessServices` is embedded as a fold that populates
  each slot of a `none`-initialised slice, and the concurrency discipline
  of the semaphore is embedded separately as a step relation on counter
  states (`SchedState`).
* The external library `retry-go/v4`'s `retry.Do` (options `Attempts`,
  `Delay`, `Context`, `OnRetry`) is embedded by its observable behaviour:
  a context check on entry, then for a positive attempt budget a loop that
  stops at the first success, at budget exhaustion, or when the context is
  observed cancelled in the delay select between attempts; an attempt
  budget of 0 makes the library retry until success, which need not
  terminate and is embedded as the step function `uStep`.
-/

namespace PhantomECS

/-- Go `error` values, rendered by message; `none` models the nil error. -/
abbrev Err := String

/-- The message of Go's `context.Canceled` error value. -/
def contextCanceled : Err := "context canceled"

namespace batch

/-- Structure `batch.Config` from src/internal/batch/batch.go. -/
structure Config where
  MaxConcurrency : Int
  RetryAttempts : Int
  RetryDelay : Int
  ShowProgress : Bool

/-- Structure `batch.ProcessResult` from src/internal/batch/batch.go. -/
structure ProcessResult where
  ServiceName : String
  Success : Bool
  Error : Option Err
  Duration : Nat
deriving Repr, DecidableEq

/-- Function `batch.GetDefaultConfig` from src/internal/batch/batch.go
(`RetryDelay` is 2 seconds in nanoseconds). -/
def GetDefaultConfig : Config :=
  { MaxConcurrency := 3, RetryAttempts := 3, RetryDelay := 2000000000,
    ShowProgress := true }

/-- The retry trace one scheduled item experiences during one batch run:
`outcome k` is what the k-th `Processor.Process` invocation returns
(`none` = success), `cancelObs k` tells whether the shared context is
observed `Done` in the delay select following failed attempt `k`, and
`entryCancelled` whether the context is already `Done` when `retry.Do`
starts.  `dur` is the wall-clock duration `time.Since(start)` measures for
the whole attempt sequence. -/
structure ItemRun where
  outcome : Nat → Option Err
  cancelObs : Nat → Bool
  entryCancelled : Bool
  dur : Nat

/-- The attempt budget `uint(bp.config.RetryAttempts + 1)` passed to
`retry.Attempts`: int64 addition then conversion to a 64-bit unsigned
value, i.e. reduction mod 2^64. -/
def attemptsOf (r : Int) : Nat := ((r + 1) % (2 : Int) ^ 64).toNat

/-- The bounded-attempts loop of `retry.Do` (retry-go v4) as used by
`processServiceWithRetry`, for attempt budget ≥ 1.  Arguments: remaining
attempts, index of the next attempt, and the wrapper's `lastErr` closure
variable.  Returns (number of `Process` invocations performed so far plus
earlier ones, whether `retry.Do` returns nil, final `lastErr`).  A failed
attempt updates `lastErr`; on the last budgeted attempt the loop breaks
without waiting; otherwise the delay select either observes the cancelled
context (returning the context error to `retry.Do`'s caller) or proceeds
to the next attempt.  The budget-0 case is the library's
retry-until-success branch, which need not terminate and is modelled by
`uStep`/`uIter` below; here it returns without invoking the function. -/
def retryAux (f : Nat → Option Err) (obs : Nat → Bool) :
    Nat → Nat → Option Err → Nat × Bool × Option Err
  | 0, i, acc => (i, false, acc)
  | 1, i, acc =>
      match f i with
      | none => (i + 1, true, acc)
      | some e => (i + 1, false, some e)
  | (r + 2), i, acc =>
      match f i with
      | none => (i + 1, true, acc)
      | some e =>
          if obs i then (i + 1, false, some e)
          else retryAux f obs (r + 1) (i + 1) (some e)

/-- Model of `retry.Do` with `Attempts a`, `Context ctx`, `Delay`, plus the
wrapper's `lastErr` accounting, for one item trace: the context is checked
on entry (returning the context error with no invocation, `lastErr` still
nil), then the attempt loop runs.  Result: (number of `Process`
invocations, whether `retry.Do` returned nil, final `lastErr`). -/
def retryDo (a : Nat) (f : Nat → Option Err) (obs : Nat → Bool)
    (entryCancelled : Bool) : Nat × Bool × Option Err :=
  if entryCancelled then (0, false, none)
  else retryAux f obs a 0 none

/-- Method `(*BatchProcessor).processServiceWithRetry` from
src/internal/batch/batch.go: runs `retry.Do` and builds the
`ProcessResult`, with `Error` taken from the `lastErr` closure variable
(not from `retry.Do`'s return value) on failure and nil on success. -/
def processServiceWithRetry (cfg : Config) (run : ItemRun)
    (serviceName : String) : ProcessResult :=
  let out := retryDo (attemptsOf cfg.RetryAttempts) run.outcome
    run.cancelObs run.entryCancelled
  if out.2.1 then
    { ServiceName := serviceName, Success := true, Error := none,
      Duration := run.dur }
  else
    { ServiceName := serviceName, Success := false, Error := out.2.2,
      Duration := run.dur }

/-- Each call of `ProcessServices` launches one goroutine per input item
(`for i, service := range services { wg.Add(1); go ... }`). -/
def workersSpawned (services : List String) : Nat := services.length

/-- The result slice of `ProcessServices`:
`results := make([]*ProcessResult, len(services))` (all slots nil), then
worker `i` performs `results[index] = result` at its own index.  `none`
models a nil `*ProcessResult` slot. -/
def resultsSlice (worker : Nat → ProcessResult) (n : Nat) :
    List (Option ProcessResult) :=
  (List.range n).foldl (fun acc i => acc.set i (some (worker i)))
    (List.replicate n none)

/-- Method `(*BatchProcessor).ProcessServices` from src/internal/batch/batch.go,
with the per-item retry traces supplied by `runs` (item `i` experiences
`runs i`).  Whenever `wg.Wait()` returns, the function returns
`(results, nil)`; no configuration check is performed.  This functional
embedding describes the runs that return: every run with
`MaxConcurrency ≥ 1` (each worker eventually passes the semaphore), and
the empty-input run for any `MaxConcurrency` (no worker is spawned and no
channel operation happens).  With `MaxConcurrency = 0` and a non-empty
input the Go code deadlocks on the unbuffered semaphore channel and never
returns — captured by the stuck scheduler states of `SchedReachable` at
capacity 0 — and a negative `MaxConcurrency` makes `make(chan ...)`
panic; theorems instantiate this definition only inside the returning
domain. -/
def ProcessServices (cfg : Config) (runs : Nat → ItemRun)
    (services : List String) : List (Option ProcessResult) × Option Err :=
  (resultsSlice
      (fun i => processServiceWithRetry cfg (runs i) (services.getD i ""))
      services.length,
   none)

/-- State of the retry-until-success branch of `retry.Do`
(attempt budget 0): invocation count, the wrapper's `lastErr`, whether the
loop has returned, and with which outcome. -/
structure URetryState where
  inv : Nat
  lastErr : Option Err
  done : Bool
  ok : Bool
deriving Repr, DecidableEq

/-- One iteration of the retry-until-success branch: invoke the function;
on success return nil; on failure update `lastErr` and either observe the
cancelled context in the delay select (returning the context error) or
continue. -/
def uStep (f : Nat → Option Err) (obs : Nat → Bool) (s : URetryState) :
    URetryState :=
  if s.done then s
  else
    match f s.inv with
    | none => { inv := s.inv + 1, lastErr := s.lastErr, done := true,
                ok := true }
    | some e =>
        if obs s.inv then
          { inv := s.inv + 1, lastErr := some e, done := true, ok := false }
        else
          { inv := s.inv + 1, lastErr := some e, done := false, ok := false }

/-- Runs `n` iterations of the retry-until-success branch from its start
state. -/
def uIter (f : Nat → Option Err) (obs : Nat → Bool) : Nat → URetryState
  | 0 => { inv := 0, lastErr := none, done := false, ok := false }
  | n + 1 => uStep f obs (uIter f obs n)

/-- Abstract state of the semaphore discipline in `ProcessServices`: how
many workers have not yet passed `semaphore <- struct{}{}`, how many are
between acquire and the deferred `<-semaphore` release (i.e. running their
retry-wrapped unit of work), and how many have released. -/
structure SchedState where
  waiting : Nat
  inflight : Nat
  done : Nat
deriving Repr, DecidableEq

/-- Initial scheduler state for `n` input items: all `n` goroutines are
spawned and blocked on the semaphore send, none in flight. -/
def initSched (n : Nat) : SchedState :=
  { waiting := n, inflight := 0, done := 0 }

/-- Transitions of the semaphore discipline with channel capacity `cap`
(`semaphore := make(chan struct{}, bp.config.MaxConcurrency)`): a send on
a buffered channel succeeds only while fewer than `cap` tokens are held,
and the deferred receive releases one token unconditionally when a worker
finishes. -/
inductive SchedStep (cap : Nat) : SchedState → SchedState → Prop
  | acquire (s : SchedState) (hw : 0 < s.waiting) (hc : s.inflight < cap) :
      SchedStep cap s
        { waiting := s.waiting - 1, inflight := s.inflight + 1,
          done := s.done }
  | release (s : SchedState) (hi : 0 < s.inflight) :
      SchedStep cap s
        { waiting := s.waiting, inflight := s.inflight - 1,
          done := s.done + 1 }

/-- States of one batch run reachable from the initial state by the
semaphore discipline. -/
inductive SchedReachable (cap n : Nat) : SchedState → Prop
  | init : SchedReachable cap n (initSched n)
  | step {s t : SchedState} : SchedReachable cap n s → SchedStep cap s t →
      SchedReachable cap n t

/-- Structure `batch.Statistics` from src/internal/batch/batch.go.  `FailedServices`
is a Go `[]string`; `none` models the nil slice, `some l` a non-nil slice
with contents `l`. -/
structure Statistics where
  TotalServices : Nat
  SuccessfulCount : Nat
  FailedCount : Nat
  TotalDuration : Nat
  AverageDuration : Nat
  FailedServices : Option (List String)
deriving Repr, DecidableEq

/-- Go `append` on a possibly-nil `[]string`. -/
def goAppend (s : Option (List String)) (x : String) :
    Option (List String) :=
  some (s.getD [] ++ [x])

/-- Body of the `for _, result := range results` loop of
`CalculateStatistics`: accumulate `totalDuration` and bump the success or
failure counters, appending failed service names. -/
def calcStep (st : Statistics × Nat) (r : ProcessResult) :
    Statistics × Nat :=
  let totalDuration := st.2 + r.Duration
  if r.Success then
    ({ st.1 with SuccessfulCount := st.1.SuccessfulCount + 1 },
      totalDuration)
  else
    ({ st.1 with
        FailedCount := st.1.FailedCount + 1,
        FailedServices := goAppend st.1.FailedServices r.ServiceName },
      totalDuration)

/-- Function `batch.CalculateStatistics` from src/internal/batch/batch.go:
`stats := &Statistics{TotalServices: len(results), FailedServices:
make([]string, 0)}`, the range loop, then `TotalDuration` and, only when
`len(results) > 0`, `AverageDuration = totalDuration /
time.Duration(len(results))` (integer division). -/
def CalculateStatistics (results : List ProcessResult) : Statistics :=
  let init : Statistics :=
    { TotalServices := results.length, SuccessfulCount := 0,
      FailedCount := 0, TotalDuration := 0, AverageDuration := 0,
      FailedServices := some [] }
  let fin := results.foldl calcStep (init, 0)
  let stats := { fin.1 with TotalDuration := fin.2 }
  if results.length > 0 then
    { stats with AverageDuration := fin.2 / results.length }
  else stats

/-- Function `CalculateStatistics` over a heap of `*ProcessResult` pointers, the
heap threaded through the loop exactly as the Go code uses it: the input
is a `[]*ProcessResult` (a list of addresses), each iteration dereferences
one pointer and performs no store, and the final heap is returned
alongside the statistics so the frame behaviour is visible. -/
def CalculateStatisticsH (heap : Nat → ProcessResult) (ptrs : List Nat) :
    Statistics × (Nat → ProcessResult) :=
  let init : Statistics :=
    { TotalServices := ptrs.length, SuccessfulCount := 0,
      FailedCount := 0, TotalDuration := 0, AverageDuration := 0,
      FailedServices := some [] }
  let fin := ptrs.foldl
    (fun (st : (Statistics × Nat) × (Nat → ProcessResult)) (p : Nat) =>
      let h := st.2
      let r := h p
      (calcStep st.1 r, h))
    ((init, 0), heap)
  let stats := { fin.1.1 with TotalDuration := fin.1.2 }
  (if ptrs.length > 0 then
    { stats with AverageDuration := fin.1.2 / ptrs.length }
   else stats,
   fin.2)

/-- A trivial item trace: every attempt succeeds, no cancellation. -/
def trivialRun : ItemRun :=
  { outcome := fun _ => none, cancelObs := fun _ => false,
    entryCancelled := false, dur := 0 }

/-- An item trace whose context is already cancelled when `retry.Do`
starts: no `Process` attempt ever runs. -/
def entryCancelledRun : ItemRun :=
  { outcome := fun _ => some "恒久的な失敗", cancelObs := fun _ => false,
    entryCancelled := true, dur := 5 }

/-- A configuration with non-positive `MaxConcurrency` (a configuration
error per the spec). -/
def cfgZeroConc : Config :=
  { MaxConcurrency := 0, RetryAttempts := 1, RetryDelay := 0,
    ShowProgress := false }

end batch

namespace config

/-- Map `config.validRegions` from the base configuration file: the accepted
AWS region names. -/
def validRegions : List String :=
  ["us-east-1", "us-east-2", "us-west-1", "us-west-2", "af-south-1",
   "ap-east-1", "ap-south-1", "ap-northeast-3", "ap-northeast-2",
   "ap-southeast-1", "ap-southeast-2", "ap-northeast-1", "ca-central-1",
   "eu-central-1", "eu-west-1", "eu-west-2", "eu-south-1", "eu-west-3",
   "eu-north-1", "me-south-1", "sa-east-1"]

/-- Structure `config.Config`, the base configuration structure. -/
structure Config where
  Region : String
  Profile : String
  OutputFormat : String
deriving Repr, DecidableEq

/-- Method `(*Config).Validate` from the base configuration file: the region must
be one of `validRegions`. -/
def Config.Validate (c : Config) : Option Err :=
  if validRegions.contains c.Region then none
  else some ("invalid AWS region: " ++ c.Region)

/-- Structure `config.LoggingConfig` from src/internal/config/enhanced_config.go. -/
structure LoggingConfig where
  Level : String
  Format : String
  Filename : String
  MaxSize : Int
  MaxAge : Int
  MaxBackups : Int
deriving Repr, DecidableEq

/-- Structure `config.BatchConfig` from src/internal/config/enhanced_config.go. -/
structure BatchConfig where
  MaxConcurrency : Int
  RetryAttempts : Int
  RetryDelay : Int
  ShowProgress : Bool
deriving Repr, DecidableEq

/-- Structure `config.EnhancedConfig` from src/internal/config/enhanced_config.go,
with the embedded base `Config`. -/
structure EnhancedConfig extends Config where
  Logging : LoggingConfig
  Batch : BatchConfig
deriving Repr, DecidableEq

/-- Method `(*EnhancedConfig).Validate` from
src/internal/config/enhanced_config.go: base validation, then output
format, log level, log format, `MaxConcurrency < 1` and
`RetryAttempts < 0` checks, in source order. -/
def EnhancedConfig.Validate (c : EnhancedConfig) : Option Err :=
  match c.toConfig.Validate with
  | some e => some e
  | none =>
    if !(["json", "yaml", "table"].contains c.OutputFormat) then
      some ("無効な出力フォーマット: " ++ c.OutputFormat ++
        " (有効な値: json, yaml, table)")
    else if !(["debug", "info", "warn", "error"].contains c.Logging.Level)
    then
      some ("無効なログレベル: " ++ c.Logging.Level ++
        " (有効な値: debug, info, warn, error)")
    else if !(["json", "text"].contains c.Logging.Format) then
      some ("無効なログフォーマット: " ++ c.Logging.Format ++
        " (有効な値: json, text)")
    else if c.Batch.MaxConcurrency < 1 then
      some "同時実行数は1以上である必要があります"
    else if c.Batch.RetryAttempts < 0 then
      some "リトライ回数は0以上である必要があります"
    else none

/-- A concrete enhanced configuration whose only defect is a non-positive
`MaxConcurrency`. -/
def ecZeroConc : EnhancedConfig :=
  { Region := "us-east-1", Profile := "", OutputFormat := "json",
    Logging := { Level := "info", Format := "json", Filename := "",
                 MaxSize := 100, MaxAge := 30, MaxBackups := 10 },
    Batch := { MaxConcurrency := 0, RetryAttempts := 3, RetryDelay := 0,
               ShowProgress := false } }

end config

namespace batch

/-- An item trace that fails on every attempt, never cancelled. -/
def alwaysFailRun : ItemRun :=
  { outcome := fun _ => some "恒久的な失敗", cancelObs := fun _ => false,
    entryCancelled := false, dur := 7 }

/-- An item trace that fails once then succeeds, never cancelled. -/
def failOnceRun : ItemRun :=
  { outcome := fun k => if k = 0 then some "transient" else none,
    cancelObs := fun _ => false, entryCancelled := false, dur := 3 }

/-- An item trace that fails and whose context is observed cancelled in
the delay select right after the first attempt. -/
def cancelAfterFirstRun : ItemRun :=
  { outcome := fun _ => some "boom", cancelObs := fun k => k == 0,
    entryCancelled := false, dur := 1 }

/-- A concrete successful `ProcessResult`. -/
def okResult : ProcessResult :=
  { ServiceName := "svc", Success := true, Error := none, Duration := 4 }

/-- A configuration with a retry budget of two additional attempts. -/
def cfgRetry2 : Config :=
  { MaxConcurrency := 2, RetryAttempts := 2, RetryDelay := 0,
    ShowProgress := false }

/-- A configuration with a retry budget of three additional attempts. -/
def cfgRetry3 : Config :=
  { MaxConcurrency := 2, RetryAttempts := 3, RetryDelay := 0,
    ShowProgress := false }

theorem length_foldl_set (w : Nat → ProcessResult) :
    ∀ (l : List Nat) (acc : List (Option ProcessResult)),
      (l.foldl (fun a i => a.set i (some (w i))) acc).length = acc.length
  | [], _ => rfl
  | i :: t, acc => by
      rw [List.foldl_cons, length_foldl_set w t, List.length_set]

theorem getElem?_foldl_set_of_not_mem (w : Nat → ProcessResult) :
    ∀ (l : List Nat) (acc : List (Option ProcessResult)) (j : Nat), j ∉ l →
      (l.foldl (fun a i => a.set i (some (w i))) acc)[j]? = acc[j]?
  | [], _, _, _ => rfl
  | i :: t, acc, j, hj => by
      rw [List.foldl_cons,
        getElem?_foldl_set_of_not_mem w t _ j
          (fun h => hj (List.mem_cons_of_mem i h)),
        List.getElem?_set_ne (by rintro rfl; exact hj (List.mem_cons_self i t))]

theorem getElem?_foldl_set_of_mem (w : Nat → ProcessResult) :
    ∀ (l : List Nat) (acc : List (Option ProcessResult)) (j : Nat),
      l.Nodup → j ∈ l → j < acc.length →
      (l.foldl (fun a i => a.set i (some (w i))) acc)[j]? = some (some (w j))
  | [], _, _, _, hm, _ => absurd hm (List.not_mem_nil _)
  | i :: t, acc, j, hnd, hm, hlen => by
      rw [List.foldl_cons]
      rcases List.mem_cons.mp hm with rfl | hmt
      · rw [getElem?_foldl_set_of_not_mem w t _ j (List.nodup_cons.mp hnd).1,
          List.getElem?_set_self hlen]
      · exact getElem?_foldl_set_of_mem w t _ j (List.nodup_cons.mp hnd).2 hmt
          (by rw [List.length_set]; exact hlen)

theorem resultsSlice_length (w : Nat → ProcessResult) (n : Nat) :
    (resultsSlice w n).length = n := by
  rw [resultsSlice, length_foldl_set, List.length_replicate]

theorem resultsSlice_getElem? (w : Nat → ProcessResult) {n j : Nat}
    (h : j < n) : (resultsSlice w n)[j]? = some (some (w j)) := by
  rw [resultsSlice]
  exact getElem?_foldl_set_of_mem w (List.range n) _ j (List.nodup_range n)
    (List.mem_range.mpr h) (by rw [List.length_replicate]; exact h)

theorem processServiceWithRetry_eq (cfg : Config) (run : ItemRun)
    (name : String) :
    processServiceWithRetry cfg run name =
      if (retryDo (attemptsOf cfg.RetryAttempts) run.outcome run.cancelObs
          run.entryCancelled).2.1 then
        { ServiceName := name, Success := true, Error := none,
          Duration := run.dur }
      else
        { ServiceName := name, Success := false,
          Error := (retryDo (attemptsOf cfg.RetryAttempts) run.outcome
            run.cancelObs run.entryCancelled).2.2,
          Duration := run.dur } := rfl

theorem processServiceWithRetry_ServiceName (cfg : Config) (run : ItemRun)
    (name : String) :
    (processServiceWithRetry cfg run name).ServiceName = name := by
  rw [processServiceWithRetry_eq]
  split <;> rfl

/-- C1: for every input sequence of item keys, `ProcessServices` returns a
result slice of exactly the input length, slot `i` is populated (non-nil)
with the `ProcessResult` of the item submitted at index `i` and carries
that item's key, the top-level error is nil, and for the empty input it
returns an empty slice and nil error with no worker goroutine
launched. -/
theorem c1_process_services_index_aligned (cfg : Config)
    (runs : Nat → ItemRun) (services : List String) :
    (ProcessServices cfg runs services).1.length = services.length ∧
    (ProcessServices cfg runs services).2 = none ∧
    (∀ i, (h : i < services.length) →
      (ProcessServices cfg runs services).1[i]? =
        some (some (processServiceWithRetry cfg (runs i)
          (services.get ⟨i, h⟩))) ∧
      ∃ r : ProcessResult,
        (ProcessServices cfg runs services).1[i]? = some (some r) ∧
        r.ServiceName = services.get ⟨i, h⟩) ∧
    (services = [] →
      ProcessServices cfg runs services = ([], none) ∧
      workersSpawned services = 0) := by
  refine ⟨?_, rfl, ?_, ?_⟩
  · simpa [ProcessServices] using
      resultsSlice_length
        (fun i => processServiceWithRetry cfg (runs i) (services.getD i ""))
        services.length
  · intro i h
    have hw := resultsSlice_getElem?
      (fun i => processServiceWithRetry cfg (runs i) (services.getD i "")) h
    have hg : services[i]?.getD "" = services[i] := by
      rw [List.getElem?_eq_getElem h]
      rfl
    refine ⟨by simpa [ProcessServices, hg] using hw,
      ⟨_, by simpa [ProcessServices, hg] using hw,
        processServiceWithRetry_ServiceName _ _ _⟩⟩
  · intro hserv
    subst hserv
    exact ⟨rfl, rfl⟩

/-- Witness for C1 at a concrete two-item batch. -/
theorem c1_witness :
    (ProcessServices GetDefaultConfig (fun _ => trivialRun)
        ["a", "b"]).1[1]? =
      some (some (processServiceWithRetry GetDefaultConfig trivialRun
        "b")) :=
  ((c1_process_services_index_aligned GetDefaultConfig
      (fun _ => trivialRun) ["a", "b"]).2.2.1 1 (by decide)).1

/-- C3: in every state of one batch run reachable under the semaphore
discipline with channel capacity `MaxConcurrency ≥ 1`, at most
`MaxConcurrency` workers are between semaphore acquire and release, i.e.
at most `MaxConcurrency` Unit-of-Work invocations are in flight. -/
theorem c3_inflight_bounded_by_max_concurrency (cap n : Nat)
    (s : SchedState) (_hcap : 1 ≤ cap) (hs : SchedReachable cap n s) :
    s.inflight ≤ cap := by
  induction hs with
  | init => exact Nat.zero_le cap
  | step hr hst ih =>
      cases hst with
      | acquire hw hc => exact hc
      | release hi => exact le_trans (Nat.sub_le _ _) ih

/-- Witness for C3: a state one acquire step into a run of four items
with capacity two. -/
theorem c3_witness : (SchedState.mk 3 1 0).inflight ≤ 2 :=
  c3_inflight_bounded_by_max_concurrency 2 4 ⟨3, 1, 0⟩ (by decide)
    (SchedReachable.step SchedReachable.init
      (SchedStep.acquire (initSched 4) (by decide) (by decide)))

theorem retryAux_inv_le (f : Nat → Option Err) (obs : Nat → Bool) :
    ∀ (a i : Nat) (acc : Option Err),
      (retryAux f obs a i acc).1 ≤ i + a
  | 0, i, acc => by simp [retryAux]
  | 1, i, acc => by
      cases hfi : f i <;> simp [retryAux, hfi]
  | (r + 2), i, acc => by
      cases hfi : f i with
      | none => simp [retryAux, hfi]
      | some e =>
          cases hoi : obs i with
          | true => simp [retryAux, hfi, hoi]
          | false =>
              have ih := retryAux_inv_le f obs (r + 1) (i + 1) (some e)
              simp only [retryAux, hfi, hoi, Bool.false_eq_true, if_false]
              omega

theorem retryAux_fail_spec (f : Nat → Option Err) (obs : Nat → Bool) :
    ∀ (a i : Nat) (acc : Option Err), 1 ≤ a →
      (retryAux f obs a i acc).2.1 = false →
      ∃ m, (retryAux f obs a i acc).1 = m + 1 ∧ i ≤ m ∧
        f m ≠ none ∧ (retryAux f obs a i acc).2.2 = f m
  | 0, i, acc, ha, _ => absurd ha (by omega)
  | 1, i, acc, _, hfail => by
      cases hfi : f i with
      | none => rw [retryAux, hfi] at hfail; exact absurd hfail (by simp)
      | some e =>
          refine ⟨i, ?_, Nat.le_refl i, ?_, ?_⟩ <;>
            simp [retryAux, hfi]
  | (r + 2), i, acc, _, hfail => by
      cases hfi : f i with
      | none => rw [retryAux, hfi] at hfail; exact absurd hfail (by simp)
      | some e =>
          cases hoi : obs i with
          | true =>
              refine ⟨i, ?_, Nat.le_refl i, ?_, ?_⟩ <;>
                simp [retryAux, hfi, hoi]
          | false =>
              simp only [retryAux, hfi, hoi, Bool.false_eq_true, if_false]
                at hfail ⊢
              obtain ⟨m, h1, h2, h3, h4⟩ :=
                retryAux_fail_spec f obs (r + 1) (i + 1) (some e)
                  (by omega) hfail
              exact ⟨m, h1, by omega, h3, h4⟩

theorem retryAux_allFail (f : Nat → Option Err) (obs : Nat → Bool)
    (e : Nat → Err) (hf : ∀ k, f k = some (e k))
    (hobs : ∀ k, obs k = false) :
    ∀ (a i : Nat) (acc : Option Err), 1 ≤ a →
      retryAux f obs a i acc = (i + a, false, some (e (i + a - 1)))
  | 0, i, acc, ha => absurd ha (by omega)
  | 1, i, acc, _ => by simp [retryAux, hf i]
  | (r + 2), i, acc, _ => by
      have ih := retryAux_allFail f obs e hf hobs (r + 1) (i + 1)
        (some (e i)) (by omega)
      simp only [retryAux, hf i, hobs i, Bool.false_eq_true, if_false, ih]
      have h1 : i + 1 + (r + 1) = i + (r + 2) := by omega
      rw [h1]

theorem retryAux_failThenSucc (f : Nat → Option Err) (obs : Nat → Bool)
    (hobs : ∀ k, obs k = false) :
    ∀ (k a i : Nat) (acc : Option Err), k + 1 ≤ a →
      (∀ j, j < k → f (i + j) ≠ none) → f (i + k) = none →
      (retryAux f obs a i acc).1 = i + (k + 1) ∧
      (retryAux f obs a i acc).2.1 = true
  | 0, 0, i, acc, ha, _, _ => absurd ha (by omega)
  | 0, 1, i, acc, _, _, hsucc => by
      have : f i = none := by simpa using hsucc
      simp [retryAux, this]
  | 0, (r + 2), i, acc, _, _, hsucc => by
      have : f i = none := by simpa using hsucc
      simp [retryAux, this]
  | (k + 1), 0, i, acc, ha, _, _ => absurd ha (by omega)
  | (k + 1), 1, i, acc, ha, _, _ => absurd ha (by omega)
  | (k + 1), (r + 2), i, acc, _, hfail, hsucc => by
      cases hfi : f i with
      | none =>
          exact absurd (by simpa using hfi) (hfail 0 (by omega))
      | some e =>
          have hrec := retryAux_failThenSucc f obs hobs k (r + 1) (i + 1)
            (some e) (by omega)
            (fun j hj => by
              have hh := hfail (j + 1) (by omega)
              have he : i + (j + 1) = i + 1 + j := by omega
              rw [he] at hh
              exact hh)
            (by
              have he : i + (k + 1) = i + 1 + k := by omega
              rw [← he]
              exact hsucc)
          simp only [retryAux, hfi, hobs i, Bool.false_eq_true, if_false]
          exact ⟨by rw [hrec.1]; omega, hrec.2⟩

theorem retryAux_cancelMid (f : Nat → Option Err) (obs : Nat → Bool) :
    ∀ (m a i : Nat) (acc : Option Err), m + 2 ≤ a →
      (∀ j, j ≤ m → f (i + j) ≠ none) →
      (∀ j, j < m → obs (i + j) = false) →
      obs (i + m) = true →
      (retryAux f obs a i acc).1 = i + (m + 1) ∧
      (retryAux f obs a i acc).2.1 = false ∧
      (retryAux f obs a i acc).2.2 = f (i + m)
  | m, 0, i, acc, ha, _, _, _ => absurd ha (by omega)
  | m, 1, i, acc, ha, _, _, _ => absurd ha (by omega)
  | 0, (r + 2), i, acc, _, hfail, _, hlast => by
      cases hfi : f i with
      | none => exact absurd (by simpa using hfi) (hfail 0 (by omega))
      | some e =>
          have ho : obs i = true := by simpa using hlast
          simp [retryAux, hfi, ho]
  | (m + 1), (r + 2), i, acc, ha, hfail, hcanc, hlast => by
      cases hfi : f i with
      | none => exact absurd (by simpa using hfi) (hfail 0 (by omega))
      | some e =>
          have ho : obs i = false := by
            have := hcanc 0 (by omega)
            simpa using this
          have hrec := retryAux_cancelMid f obs m (r + 1) (i + 1) (some e)
            (by omega)
            (fun j hj => by
              have hh := hfail (j + 1) (by omega)
              have he : i + (j + 1) = i + 1 + j := by omega
              rw [he] at hh
              exact hh)
            (fun j hj => by
              have hh := hcanc (j + 1) (by omega)
              have he : i + (j + 1) = i + 1 + j := by omega
              rw [he] at hh
              exact hh)
            (by
              have he : i + (m + 1) = i + 1 + m := by omega
              rw [← he]
              exact hlast)
          simp only [retryAux, hfi, ho, Bool.false_eq_true, if_false]
          refine ⟨by rw [hrec.1]; omega, hrec.2.1, ?_⟩
          rw [hrec.2.2]
          have he : i + 1 + m = i + (m + 1) := by omega
          rw [he]

theorem attemptsOf_eq (r : Nat) (h : (r : Int) + 1 < 2 ^ 64) :
    attemptsOf (r : Int) = r + 1 := by
  unfold attemptsOf
  rw [show ((2 : Int) ^ 64) = 18446744073709551616 from by norm_num] at h ⊢
  omega

/-- C5: for an item whose Unit-of-Work fails on every attempt, with
`RetryAttempts = r ≥ 0` and the context never cancelled,
`Processor.Process` is invoked exactly `r + 1` times and the item's
`ProcessResult` has `Success = false` with `Error` equal to the error
returned by the last attempt. -/
theorem c5_always_fail_invokes_r_plus_one (cfg : Config) (run : ItemRun)
    (name : String) (r : Nat) (hr : cfg.RetryAttempts = (r : Int))
    (hsmall : (r : Int) + 1 < 2 ^ 64) (e : Nat → Err)
    (hf : ∀ k, run.outcome k = some (e k))
    (hobs : ∀ k, run.cancelObs k = false)
    (hentry : run.entryCancelled = false) :
    (retryDo (attemptsOf cfg.RetryAttempts) run.outcome run.cancelObs
        run.entryCancelled).1 = r + 1 ∧
    (processServiceWithRetry cfg run name).Success = false ∧
    (processServiceWithRetry cfg run name).Error = some (e r) := by
  have ha : attemptsOf cfg.RetryAttempts = r + 1 := by
    rw [hr]
    exact attemptsOf_eq r hsmall
  have hrd : retryDo (attemptsOf cfg.RetryAttempts) run.outcome
      run.cancelObs run.entryCancelled = (r + 1, false, some (e r)) := by
    simp only [retryDo, hentry, Bool.false_eq_true, if_false, ha]
    have := retryAux_allFail run.outcome run.cancelObs e hf hobs (r + 1) 0
      none (by omega)
    simpa using this
  refine ⟨by rw [hrd], ?_, ?_⟩ <;> simp [processServiceWithRetry_eq, hrd]

/-- Witness for C5: `RetryAttempts = 2`, an always-failing item: three
invocations, failure, last error retained. -/
theorem c5_witness :
    (retryDo (attemptsOf cfgRetry2.RetryAttempts) alwaysFailRun.outcome
        alwaysFailRun.cancelObs alwaysFailRun.entryCancelled).1 = 3 ∧
    (processServiceWithRetry cfgRetry2 alwaysFailRun "svc").Success =
      false ∧
    (processServiceWithRetry cfgRetry2 alwaysFailRun "svc").Error =
      some "恒久的な失敗" :=
  c5_always_fail_invokes_r_plus_one cfgRetry2 alwaysFailRun "svc" 2
    (by decide) (by decide) (fun _ => "恒久的な失敗") (fun _ => rfl)
    (fun _ => rfl) rfl

/-- C6: for an item that fails exactly `k` times and then succeeds, with
`RetryAttempts = r ≥ k` and the context never cancelled, the retry
wrapper stops right after the first success: `Processor.Process` runs
exactly `k + 1` times and the item's `ProcessResult` has
`Success = true` and `Error = nil`. -/
theorem c6_retry_absorbs_transient_failures (cfg : Config) (run : ItemRun)
    (name : String) (k r : Nat) (hr : cfg.RetryAttempts = (r : Int))
    (hsmall : (r : Int) + 1 < 2 ^ 64) (hkr : k ≤ r)
    (hfail : ∀ j, j < k → run.outcome j ≠ none)
    (hsucc : run.outcome k = none)
    (hobs : ∀ j, run.cancelObs j = false)
    (hentry : run.entryCancelled = false) :
    (retryDo (attemptsOf cfg.RetryAttempts) run.outcome run.cancelObs
        run.entryCancelled).1 = k + 1 ∧
    (processServiceWithRetry cfg run name).Success = true ∧
    (processServiceWithRetry cfg run name).Error = none := by
  have ha : attemptsOf cfg.RetryAttempts = r + 1 := by
    rw [hr]
    exact attemptsOf_eq r hsmall
  have hrec := retryAux_failThenSucc run.outcome run.cancelObs hobs k
    (r + 1) 0 none (by omega)
    (fun j hj => by simpa using hfail j hj) (by simpa using hsucc)
  have h1 : (retryDo (attemptsOf cfg.RetryAttempts) run.outcome
      run.cancelObs run.entryCancelled).1 = k + 1 := by
    simp only [retryDo, hentry, Bool.false_eq_true, if_false, ha]
    rw [hrec.1]
    omega
  have h2 : (retryDo (attemptsOf cfg.RetryAttempts) run.outcome
      run.cancelObs run.entryCancelled).2.1 = true := by
    simp only [retryDo, hentry, Bool.false_eq_true, if_false, ha]
    exact hrec.2
  refine ⟨h1, ?_, ?_⟩ <;> simp [processServiceWithRetry_eq, h2]

/-- Witness for C6: an item failing once then succeeding under
`RetryAttempts = 2`: two invocations, success, nil error. -/
theorem c6_witness :
    (retryDo (attemptsOf cfgRetry2.RetryAttempts) failOnceRun.outcome
        failOnceRun.cancelObs failOnceRun.entryCancelled).1 = 2 ∧
    (processServiceWithRetry cfgRetry2 failOnceRun "svc").Success = true ∧
    (processServiceWithRetry cfgRetry2 failOnceRun "svc").Error = none :=
  c6_retry_absorbs_transient_failures cfgRetry2 failOnceRun "svc" 1 2
    (by decide) (by decide) (by decide)
    (fun j hj => by simp [Nat.lt_one_iff.mp hj, failOnceRun])
    (by simp [failOnceRun]) (fun _ => rfl) rfl

/-- C8: a failed `ProcessResult`'s `Error` always holds the wrapper's
`lastErr`, i.e. the error returned by the last completed
`Processor.Process` invocation; in particular, when the retry loop aborts
because the context is cancelled before any attempt has returned an
error, the item's result is `Success = false` with `Error = nil`, not the
cancellation error. -/
theorem c8_error_is_last_attempt_error :
    (∀ (cfg : Config) (run : ItemRun) (name : String),
      run.entryCancelled = true →
      (processServiceWithRetry cfg run name).Success = false ∧
      (processServiceWithRetry cfg run name).Error = none) ∧
    (∀ (cfg : Config) (run : ItemRun) (name : String),
      run.entryCancelled = false →
      1 ≤ attemptsOf cfg.RetryAttempts →
      (processServiceWithRetry cfg run name).Success = false →
      ∃ m, (retryDo (attemptsOf cfg.RetryAttempts) run.outcome
          run.cancelObs run.entryCancelled).1 = m + 1 ∧
        (processServiceWithRetry cfg run name).Error = run.outcome m ∧
        run.outcome m ≠ none) := by
  constructor
  · intro cfg run name hentry
    constructor <;> simp [processServiceWithRetry_eq, retryDo, hentry]
  · intro cfg run name hentry ha hfailres
    cases hok : (retryDo (attemptsOf cfg.RetryAttempts) run.outcome
        run.cancelObs run.entryCancelled).2.1 with
    | true => simp [processServiceWithRetry_eq, hok] at hfailres
    | false =>
        obtain ⟨m, h1, _, h3, h4⟩ := retryAux_fail_spec run.outcome
          run.cancelObs (attemptsOf cfg.RetryAttempts) 0 none ha
          (by simpa [retryDo, hentry] using hok)
        refine ⟨m, by simpa [retryDo, hentry] using h1, ?_, h3⟩
        rw [processServiceWithRetry_eq]
        simp only [hok, Bool.false_eq_true, if_false]
        simpa [retryDo, hentry] using h4

/-- Witness for C8: an item whose context is cancelled on entry ends as a
failure with a nil error. -/
theorem c8_witness :
    (processServiceWithRetry GetDefaultConfig entryCancelledRun
      "svc").Success = false ∧
    (processServiceWithRetry GetDefaultConfig entryCancelledRun
      "svc").Error = none :=
  c8_error_is_last_attempt_error.1 GetDefaultConfig entryCancelledRun
    "svc" rfl

/-- Counterexample to C4 as stated: an item whose context is cancelled
before its first attempt finishes with `Success = false` but
`Error = nil`, not the context's cancellation error. -/
theorem c4_counterexample :
    (processServiceWithRetry GetDefaultConfig entryCancelledRun
      "svc").Success = false ∧
    (processServiceWithRetry GetDefaultConfig entryCancelledRun
      "svc").Error = none ∧
    ¬ (processServiceWithRetry GetDefaultConfig entryCancelledRun
      "svc").Error = some contextCanceled := by
  exact ⟨rfl, rfl, by decide⟩

/-- C4 (amended): when the shared context is cancelled mid-run, every
item that had not yet completed finishes with `Success = false` and
`Error` equal to the error of its last completed `Process` attempt —
nil when the cancellation preceded every attempt, not necessarily the
context's cancellation error —, every item whose retry had already
returned success keeps `Success = true` with nil error, and
`ProcessServices` still returns a fully populated result sequence. -/
theorem c4_amended_cancellation_semantics :
    (∀ (cfg : Config) (run : ItemRun) (name : String),
      run.entryCancelled = true →
      processServiceWithRetry cfg run name =
        { ServiceName := name, Success := false, Error := none,
          Duration := run.dur }) ∧
    (∀ (cfg : Config) (run : ItemRun) (name : String) (m : Nat),
      run.entryCancelled = false →
      m + 2 ≤ attemptsOf cfg.RetryAttempts →
      (∀ j, j ≤ m → run.outcome j ≠ none) →
      (∀ j, j < m → run.cancelObs j = false) →
      run.cancelObs m = true →
      (retryDo (attemptsOf cfg.RetryAttempts) run.outcome run.cancelObs
          run.entryCancelled).1 = m + 1 ∧
      (processServiceWithRetry cfg run name).Success = false ∧
      (processServiceWithRetry cfg run name).Error = run.outcome m) ∧
    (∀ (cfg : Config) (run : ItemRun) (name : String),
      (retryDo (attemptsOf cfg.RetryAttempts) run.outcome run.cancelObs
          run.entryCancelled).2.1 = true →
      (processServiceWithRetry cfg run name).Success = true ∧
      (processServiceWithRetry cfg run name).Error = none) ∧
    (∀ (cfg : Config) (runs : Nat → ItemRun) (services : List String)
      (i : Nat), i < services.length →
      ∃ res : ProcessResult,
        (ProcessServices cfg runs services).1[i]? = some (some res)) := by
  refine ⟨?_, ?_, ?_, ?_⟩
  · intro cfg run name hentry
    rw [processServiceWithRetry_eq]
    simp [retryDo, hentry]
  · intro cfg run name m hentry hm hfail hcanc hlast
    have hmid := retryAux_cancelMid run.outcome run.cancelObs m
      (attemptsOf cfg.RetryAttempts) 0 none hm
      (fun j hj => by simpa using hfail j hj)
      (fun j hj => by simpa using hcanc j hj)
      (by simpa using hlast)
    have hrd1 : (retryDo (attemptsOf cfg.RetryAttempts) run.outcome
        run.cancelObs run.entryCancelled).1 = m + 1 := by
      simp only [retryDo, hentry, Bool.false_eq_true, if_false]
      rw [hmid.1]
      omega
    have hrd2 : (retryDo (attemptsOf cfg.RetryAttempts) run.outcome
        run.cancelObs run.entryCancelled).2.1 = false := by
      simp only [retryDo, hentry, Bool.false_eq_true, if_false]
      exact hmid.2.1
    refine ⟨hrd1, ?_, ?_⟩
    · simp [processServiceWithRetry_eq, hrd2]
    · rw [processServiceWithRetry_eq]
      simp only [hrd2, Bool.false_eq_true, if_false]
      have := hmid.2.2
      simp only [retryDo, hentry, Bool.false_eq_true, if_false]
      simpa using this
  · intro cfg run name hok
    constructor <;> simp [processServiceWithRetry_eq, hok]
  · intro cfg runs services i h
    exact ⟨_, by
      simpa [ProcessServices] using resultsSlice_getElem?
        (fun j => processServiceWithRetry cfg (runs j) (services.getD j ""))
        h⟩

/-- Witness for C4 (amended): an item cancelled in the delay select after
its first failed attempt, under the default configuration. -/
theorem c4_witness :
    (retryDo (attemptsOf GetDefaultConfig.RetryAttempts)
        cancelAfterFirstRun.outcome cancelAfterFirstRun.cancelObs
        cancelAfterFirstRun.entryCancelled).1 = 1 ∧
    (processServiceWithRetry GetDefaultConfig cancelAfterFirstRun
      "svc").Success = false ∧
    (processServiceWithRetry GetDefaultConfig cancelAfterFirstRun
      "svc").Error = cancelAfterFirstRun.outcome 0 :=
  c4_amended_cancellation_semantics.2.1 GetDefaultConfig
    cancelAfterFirstRun "svc" 0 rfl (by decide)
    (fun j hj => by simp [Nat.le_zero.mp hj, cancelAfterFirstRun])
    (fun j hj => absurd hj (Nat.not_lt_zero j)) rfl

/-- Counterexample to C2 as stated: with `MaxConcurrency = 0` (a
configuration-level problem) and the empty input — a run the Go code
really does return from, since no worker is spawned and the semaphore is
never touched — `ProcessServices` still returns a nil top-level error, so
the claimed equivalence between a non-nil error and a configuration
problem fails. -/
theorem c2_counterexample :
    ¬ (((ProcessServices cfgZeroConc (fun _ => trivialRun) []).2 ≠
        none) ↔ cfgZeroConc.MaxConcurrency < 1) := by
  intro h
  exact (h.mpr (by decide)) rfl

/-- C2 (amended): `ProcessServices` never reports a configuration
problem through its top-level error.  Whenever it returns — for every
input under `MaxConcurrency ≥ 1`, and for the empty input under any
`MaxConcurrency` — the top-level error is nil, with per-item failures
surfacing only inside the per-item results; with `MaxConcurrency = 0`
and a non-empty input it does not return at all: at semaphore capacity 0
the only reachable scheduler state is the initial one and no acquire or
release step exists, so the run never completes instead of reporting an
error.  Configuration-level problems such as a non-positive
`MaxConcurrency` are instead detected by the separate pre-flight check
`EnhancedConfig.Validate`, which returns a non-nil error whenever
`MaxConcurrency < 1` (and whenever `RetryAttempts < 0`), and whose nil
result guarantees a positive `MaxConcurrency` and non-negative
`RetryAttempts`. -/
theorem c2_amended_error_separation :
    (∀ (cfg : Config) (runs : Nat → ItemRun) (services : List String),
      1 ≤ cfg.MaxConcurrency →
      (ProcessServices cfg runs services).2 = none) ∧
    (∀ (cfg : Config) (runs : Nat → ItemRun),
      (ProcessServices cfg runs []).2 = none) ∧
    (∀ (n : Nat) (s : SchedState), SchedReachable 0 n s →
      s = initSched n ∧ ∀ t, ¬ SchedStep 0 s t) ∧
    (∀ c : config.EnhancedConfig, c.Batch.MaxConcurrency < 1 →
      c.Validate ≠ none) ∧
    (∀ c : config.EnhancedConfig, c.Batch.RetryAttempts < 0 →
      c.Validate ≠ none) ∧
    (∀ c : config.EnhancedConfig, c.Validate = none →
      1 ≤ c.Batch.MaxConcurrency ∧ 0 ≤ c.Batch.RetryAttempts) := by
  refine ⟨fun _ _ _ _ => rfl, fun _ _ => rfl, ?_, ?_, ?_, ?_⟩
  · intro n s hs
    have hinit : s = initSched n := by
      induction hs with
      | init => rfl
      | step hr hst ih =>
          subst ih
          cases hst with
          | acquire hw hc => exact absurd hc (Nat.not_lt_zero _)
          | release hi => simp [initSched] at hi
    subst hinit
    refine ⟨rfl, ?_⟩
    intro t hst
    cases hst with
    | acquire hw hc => exact absurd hc (Nat.not_lt_zero _)
    | release hi => simp [initSched] at hi
  · intro c hc
    unfold config.EnhancedConfig.Validate
    split
    · simp
    · split_ifs <;> simp_all
  · intro c hc
    unfold config.EnhancedConfig.Validate
    split
    · simp
    · split_ifs <;> simp_all
  · intro c hv
    unfold config.EnhancedConfig.Validate at hv
    split at hv
    · simp_all
    · split_ifs at hv <;> simp_all

/-- Witness for C2 (amended): a concrete run with `MaxConcurrency = 2`
returns a nil error, the empty run with `MaxConcurrency = 0` returns a
nil error, and a concrete configuration with `MaxConcurrency = 0` is
rejected by `Validate`. -/
theorem c2_witness :
    (ProcessServices cfgRetry2 (fun _ => trivialRun) ["a"]).2 = none ∧
    (ProcessServices cfgZeroConc (fun _ => trivialRun) []).2 = none ∧
    config.EnhancedConfig.Validate config.ecZeroConc ≠ none :=
  ⟨c2_amended_error_separation.1 cfgRetry2 (fun _ => trivialRun) ["a"]
      (by decide),
    c2_amended_error_separation.2.1 cfgZeroConc (fun _ => trivialRun),
    c2_amended_error_separation.2.2.2.1 config.ecZeroConc (by decide)⟩

theorem calc_foldl_const (l : List ProcessResult) :
    ∀ (st : Statistics) (d : Nat),
      (l.foldl calcStep (st, d)).1.TotalServices = st.TotalServices ∧
      (l.foldl calcStep (st, d)).1.TotalDuration = st.TotalDuration ∧
      (l.foldl calcStep (st, d)).1.AverageDuration =
        st.AverageDuration := by
  induction l with
  | nil => intro st d; exact ⟨rfl, rfl, rfl⟩
  | cons r t ih =>
      intro st d
      rw [List.foldl_cons]
      cases hrs : r.Success <;> simp [calcStep, hrs, ih]

theorem calc_foldl_success (l : List ProcessResult) :
    ∀ (st : Statistics) (d : Nat),
      (l.foldl calcStep (st, d)).1.SuccessfulCount =
        st.SuccessfulCount + (l.filter (·.Success)).length := by
  induction l with
  | nil => intro st d; simp
  | cons r t ih =>
      intro st d
      rw [List.foldl_cons]
      cases hrs : r.Success <;>
        simp [calcStep, hrs, ih, List.filter_cons] <;> omega

theorem calc_foldl_failed (l : List ProcessResult) :
    ∀ (st : Statistics) (d : Nat),
      (l.foldl calcStep (st, d)).1.FailedCount =
        st.FailedCount + (l.filter (fun r => !r.Success)).length := by
  induction l with
  | nil => intro st d; simp
  | cons r t ih =>
      intro st d
      rw [List.foldl_cons]
      cases hrs : r.Success <;>
        simp [calcStep, hrs, ih, List.filter_cons] <;> omega

theorem calc_foldl_duration (l : List ProcessResult) :
    ∀ (st : Statistics) (d : Nat),
      (l.foldl calcStep (st, d)).2 = d + (l.map (·.Duration)).sum := by
  induction l with
  | nil => intro st d; simp
  | cons r t ih =>
      intro st d
      rw [List.foldl_cons]
      cases hrs : r.Success <;> simp [calcStep, hrs, ih] <;> omega

theorem calc_foldl_failedServices (l : List ProcessResult) :
    ∀ (st : Statistics) (d : Nat) (fs : List String),
      st.FailedServices = some fs →
      (l.foldl calcStep (st, d)).1.FailedServices =
        some (fs ++
          (l.filter (fun r => !r.Success)).map (·.ServiceName)) := by
  induction l with
  | nil => intro st d fs hfs; simpa using hfs
  | cons r t ih =>
      intro st d fs hfs
      rw [List.foldl_cons]
      cases hrs : r.Success with
      | true =>
          have hstep : calcStep (st, d) r =
              ({ st with SuccessfulCount := st.SuccessfulCount + 1 },
                d + r.Duration) := by
            simp [calcStep, hrs]
          rw [hstep, ih _ _ fs (by simpa using hfs)]
          simp [List.filter_cons, hrs]
      | false =>
          have hstep : calcStep (st, d) r =
              ({ st with
                  FailedCount := st.FailedCount + 1,
                  FailedServices :=
                    goAppend st.FailedServices r.ServiceName },
                d + r.Duration) := by
            simp [calcStep, hrs]
          rw [hstep, ih _ _ (fs ++ [r.ServiceName])
            (by simp [goAppend, hfs])]
          simp [List.filter_cons, hrs]

theorem CalculateStatistics_eq (results : List ProcessResult) :
    CalculateStatistics results =
      { TotalServices := results.length,
        SuccessfulCount := (results.filter (·.Success)).length,
        FailedCount := (results.filter (fun r => !r.Success)).length,
        TotalDuration := (results.map (·.Duration)).sum,
        AverageDuration :=
          if results.length > 0 then
            (results.map (·.Duration)).sum / results.length
          else 0,
        FailedServices :=
          some ((results.filter (fun r => !r.Success)).map
            (·.ServiceName)) } := by
  have hA := calc_foldl_const results
    { TotalServices := results.length, SuccessfulCount := 0,
      FailedCount := 0, TotalDuration := 0, AverageDuration := 0,
      FailedServices := some [] } 0
  have hB := calc_foldl_success results
    { TotalServices := results.length, SuccessfulCount := 0,
      FailedCount := 0, TotalDuration := 0, AverageDuration := 0,
      FailedServices := some [] } 0
  have hC := calc_foldl_failed results
    { TotalServices := results.length, SuccessfulCount := 0,
      FailedCount := 0, TotalDuration := 0, AverageDuration := 0,
      FailedServices := some [] } 0
  have hD := calc_foldl_duration results
    { TotalServices := results.length, SuccessfulCount := 0,
      FailedCount := 0, TotalDuration := 0, AverageDuration := 0,
      FailedServices := some [] } 0
  have hE := calc_foldl_failedServices results
    { TotalServices := results.length, SuccessfulCount := 0,
      FailedCount := 0, TotalDuration := 0, AverageDuration := 0,
      FailedServices := some [] } 0 [] rfl
  simp only [CalculateStatistics]
  by_cases hlen : results.length > 0
  · rw [if_pos hlen, if_pos hlen]
    simp [hA.1, hA.2.1, hB, hC, hD, hE]
  · rw [if_neg hlen, if_neg hlen]
    simp [hA.1, hA.2.1, hA.2.2, hB, hC, hD, hE]

/-- C7: `CalculateStatistics` returns the input length as the total, the
number of successful results, failed = total - successful, the summed
duration, the integer-divided average duration (0 for an empty input,
never dividing by zero), and the failed item keys in input order, whose
number equals the failed count. -/
theorem c7_statistics_characterisation (results : List ProcessResult) :
    (CalculateStatistics results).TotalServices = results.length ∧
    (CalculateStatistics results).SuccessfulCount =
      (results.filter (·.Success)).length ∧
    (CalculateStatistics results).FailedCount =
      results.length - (results.filter (·.Success)).length ∧
    (CalculateStatistics results).TotalDuration =
      (results.map (·.Duration)).sum ∧
    (CalculateStatistics results).AverageDuration =
      (if 0 < results.length then
        (results.map (·.Duration)).sum / results.length
       else 0) ∧
    (CalculateStatistics results).FailedServices =
      some ((results.filter (fun r => !r.Success)).map (·.ServiceName)) ∧
    ((results.filter (fun r => !r.Success)).map (·.ServiceName)).length =
      (CalculateStatistics results).FailedCount := by
  have hsplit := List.length_eq_length_filter_add (l := results)
    (·.Success)
  rw [CalculateStatistics_eq]
  refine ⟨rfl, rfl, ?_, rfl, rfl, rfl, ?_⟩
  · simp only []
    omega
  · simp

/-- C10: `CalculateStatistics` is a pure read — run over a heap of
`*ProcessResult` pointers it returns the heap unchanged and computes the
same statistics as the pure function on the dereferenced results — and
when every result is successful, `FailedServices` is the non-nil empty
slice allocated by `make([]string, 0)`. -/
theorem c10_statistics_pure_frame (heap : Nat → ProcessResult)
    (ptrs : List Nat) :
    (CalculateStatisticsH heap ptrs).2 = heap ∧
    (CalculateStatisticsH heap ptrs).1 =
      CalculateStatistics (ptrs.map heap) ∧
    ((∀ p, p ∈ ptrs → (heap p).Success = true) →
      (CalculateStatisticsH heap ptrs).1.FailedServices = some []) := by
  have hfold : ∀ (l : List Nat) (acc : Statistics × Nat),
      (l.foldl (fun (st : (Statistics × Nat) × (Nat → ProcessResult))
          (p : Nat) => (calcStep st.1 (st.2 p), st.2)) (acc, heap)) =
        ((l.map heap).foldl calcStep acc, heap) := by
    intro l
    induction l with
    | nil => intro acc; rfl
    | cons p t ih =>
        intro acc
        rw [List.foldl_cons, List.map_cons, List.foldl_cons]
        exact ih (calcStep acc (heap p))
  have hlen : (ptrs.map heap).length = ptrs.length := List.length_map _ _
  have h12 : CalculateStatisticsH heap ptrs =
      (CalculateStatistics (ptrs.map heap), heap) := by
    simp only [CalculateStatisticsH, CalculateStatistics, hfold, hlen]
  refine ⟨by rw [h12], by rw [h12], ?_⟩
  intro hall
  rw [h12]
  rw [CalculateStatistics_eq]
  simp only []
  have hnil : (ptrs.map heap).filter (fun r => !r.Success) = [] := by
    rw [List.filter_eq_nil_iff]
    intro r hr
    obtain ⟨p, hp, rfl⟩ := List.mem_map.mp hr
    simp [hall p hp]
  rw [hnil]
  rfl

/-- Witness for C10: a two-pointer heap of successful results. -/
theorem c10_witness :
    (CalculateStatisticsH (fun _ => okResult) [0, 1]).2 =
      (fun _ => okResult) ∧
    (CalculateStatisticsH (fun _ => okResult) [0, 1]).1.FailedServices =
      some [] :=
  ⟨(c10_statistics_pure_frame (fun _ => okResult) [0, 1]).1,
    (c10_statistics_pure_frame (fun _ => okResult) [0, 1]).2.2
      (fun _ _ => rfl)⟩

theorem uIter_done_false (e : Nat → Err) (f : Nat → Option Err)
    (hf : ∀ k, f k = some (e k)) :
    ∀ n, (uIter f (fun _ => false) n).done = false
  | 0 => rfl
  | n + 1 => by
      have ih := uIter_done_false e f hf n
      simp [uIter, uStep, ih, hf]

/-- C9: the attempt budget is `uint(RetryAttempts+1)`, which equals
`r + 1` (and bounds the invocations of one `retry.Do` run) only for
`RetryAttempts = r ≥ 0`; for `RetryAttempts = -1` the conversion yields a
budget of 0, which the retry library treats as retry-until-success, and
with an always-failing Unit-of-Work and no cancellation that loop never
finishes. -/
theorem c9_negative_retry_attempts_unbounded :
    (∀ r : Nat, (r : Int) + 1 < 2 ^ 64 → attemptsOf (r : Int) = r + 1) ∧
    (∀ (f : Nat → Option Err) (obs : Nat → Bool) (entry : Bool) (a : Nat),
      (retryDo a f obs entry).1 ≤ a) ∧
    attemptsOf (-1) = 0 ∧
    (∀ (e : Nat → Err) (f : Nat → Option Err), (∀ k, f k = some (e k)) →
      ∀ n, (uIter f (fun _ => false) n).done = false) := by
  refine ⟨attemptsOf_eq, ?_, by decide,
    fun e f hf n => uIter_done_false e f hf n⟩
  intro f obs entry a
  cases entry with
  | true => simp [retryDo]
  | false =>
      simp only [retryDo, Bool.false_eq_true, if_false]
      simpa using retryAux_inv_le f obs a 0 none

/-- Witness for C9: budget 3 for `RetryAttempts = 2`, and five steps of
the unlimited loop on an always-failing item are still not finished. -/
theorem c9_witness :
    attemptsOf cfgRetry2.RetryAttempts = 3 ∧
    (uIter (fun _ => some "E") (fun _ => false) 5).done = false :=
  ⟨c9_negative_retry_attempts_unbounded.1 2 (by decide),
    c9_negative_retry_attempts_unbounded.2.2.2 (fun _ => "E")
      (fun _ => some "E") (fun _ => rfl) 5⟩

end batch

end PhantomECS
